import Mathlib

/-!
Verification of the eixx core against its specification.

Shallow embedding of the covered sources:
  * atom.hpp       -- interned atoms, node names, atom wire codec (ATOM_EXT)
  * port.hpp       -- Erlang ports: construction masks, equality, ordering
  * basic_otp_mailbox.hxx -- mailbox dispatcher: do_deliver, close,
    break_links, the async_receive / async_match handler wrappers

Byte strings are `List Nat` (each element one byte).  Machine integers are
modelled as mathematical `Int` / `Nat` with explicit reductions `% 2 ^ w`
where the C++ code masks, converts or wraps.  Fallible C++ code (which
throws) is modelled with `Except`.  The process-wide atom table, whose
implementation file util/atom_table.hpp is not part of the covered
sources, is modelled from the specification, as documented on
`AtomTable.lookup`.
-/

namespace EixxModel

/-- A byte string: the contents of a `std::string` viewed as raw bytes. -/
abbrev ByteStr := List Nat

/-- Error kinds thrown by the covered code paths. -/
inductive EixxErr
  | badArgument
  | tableFull
  | decodeErr
deriving DecidableEq

/-- MAXATOMLEN bound used by the atom table: identifiers are byte strings
of length 0..255 (spec section 3 and 4.A). -/
def MAXATOMLEN : Nat := 255

/-- First index of `s` in a list of entries, scanning left to right. -/
def tblIndexOf (s : ByteStr) : List ByteStr → Option Nat
  | [] => none
  | e :: rest => if e = s then some 0 else (tblIndexOf s rest).map (· + 1)

/-- The process-wide interning store: the already-interned byte strings in
index order, plus the fixed capacity. -/
structure AtomTable where
  entries  : List ByteStr
  capacity : Nat
deriving DecidableEq

/-- Modelled from the spec: util/atom_table.hpp is not under the covered
sources.  Spec 4.A: lookup returns an existing index if the bytes were
previously interned, otherwise allocates the next index and stores the
bytes; empty input returns index 0 without allocating, because index 0 is
reserved for the empty atom, which the freshly initialized table already
holds; if the table is full lookup fails with TableFull, and bytes longer
than 255 fail with BadArgument. -/
def AtomTable.lookup (t : AtomTable) (s : ByteStr) : Except EixxErr (Nat × AtomTable) :=
  if s.length > MAXATOMLEN then .error .badArgument
  else
    match tblIndexOf s t.entries with
    | some i => .ok (i, t)
    | none =>
      if t.capacity ≤ t.entries.length then .error .tableFull
      else .ok (t.entries.length, ⟨t.entries ++ [s], t.capacity⟩)

/-- A freshly constructed table: index 0 holds the empty byte string. -/
def AtomTable.init (cap : Nat) : AtomTable := ⟨[[]], cap⟩

/-- Table indexing, atom_table()[i]; out-of-range is a programming error in
the source, modelled by the empty-string default. -/
def AtomTable.get (t : AtomTable) (i : Nat) : ByteStr := t.entries.getD i []

/-- Well-formedness of an atom table: distinct indices hold distinct byte
strings (spec section 3 invariant), every entry fits the 255-byte bound,
and index 0 holds the empty atom. -/
structure AtomTable.WF (t : AtomTable) : Prop where
  nodup      : t.entries.Nodup
  len_le     : ∀ s ∈ t.entries, s.length ≤ MAXATOMLEN
  head_empty : t.entries.head? = some ([] : ByteStr)

/-- The atom class from atom.hpp: a single int index into the table. -/
structure atom where
  m_index : Nat
deriving DecidableEq

/-- The default-constructed atom, and atom::null(): index 0. -/
def atom.default : atom := ⟨0⟩

/-- Construction of an atom from a byte string: interning through the
table (atom.hpp constructors taking strings). -/
def atom.ofString (t : AtomTable) (s : ByteStr) : Except EixxErr (atom × AtomTable) :=
  match t.lookup s with
  | .ok (i, t2) => .ok (⟨i⟩, t2)
  | .error e => .error e

/-- The interned bytes behind an atom, atom_table()[m_index]. -/
def atom.str (a : atom) (t : AtomTable) : ByteStr := t.get a.m_index

/-- What C strcmp sees of a byte string through c_str(): only the bytes
before the first embedded NUL terminator. -/
def cstrOf (s : ByteStr) : ByteStr := s.takeWhile (fun b => b != 0)

/-- Three-way lexicographic byte comparison; bytes compare unsigned, and
the shorter string wins when it is a proper prefix (the terminating NUL of
the shorter C string compares below any nonzero byte). -/
def lexCmp : ByteStr → ByteStr → Int
  | [], [] => 0
  | [], _ :: _ => -1
  | _ :: _, [] => 1
  | a :: as, b :: bs => if a < b then -1 else if b < a then 1 else lexCmp as bs

/-- strcmp(a.c_str(), b.c_str()) as used by atom ordering. -/
def strcmpB (s1 s2 : ByteStr) : Int := lexCmp (cstrOf s1) (cstrOf s2)

/-- atom::operator==: comparison of table indices only. -/
def atom.beq (a b : atom) : Bool := a.m_index == b.m_index

/-- atom::operator<: strcmp of the interned strings. -/
def atom.lt (t : AtomTable) (a b : atom) : Bool := strcmpB (a.str t) (b.str t) < 0

/-- atom::compare: 0 on equal indices, otherwise strcmp. -/
def atom.compare (t : AtomTable) (a b : atom) : Int :=
  if a.m_index = b.m_index then 0 else strcmpB (a.str t) (b.str t)

/-- The strict lexicographic order over whole byte strings, written from
the words of the claim (ordering is lexicographic over the underlying
bytes) for comparison against the implemented order. -/
def lexLtBytes : ByteStr → ByteStr → Bool
  | _, [] => false
  | [], _ :: _ => true
  | a :: as, b :: bs => a < b || (a == b && lexLtBytes as bs)

/-- What claim C8 asserts of two atoms: equality is index equality, which
under the distinct-strings invariant is equality of the underlying byte
strings; the order agrees with strict lexicographic byte order; and
compare returns 0 exactly on equal atoms. -/
def atom_order_spec (t : AtomTable) (a b : atom) : Prop :=
  (atom.beq a b = true ↔ a.m_index = b.m_index) ∧
  (a.m_index = b.m_index ↔ atom.str a t = atom.str b t) ∧
  (atom.lt t a b = true ↔ lexLtBytes (atom.str a t) (atom.str b t) = true) ∧
  (atom.compare t a b = 0 ↔ atom.beq a b = true)

/-- External term format opcode for 2-byte-length atoms. -/
def ERL_ATOM_EXT : Nat := 100

/-- External term format opcode for 1-byte-length atoms. -/
def ERL_SMALL_ATOM_EXT : Nat := 115

/-- atom::encode_size(): 3 + length(). -/
def atom.encode_size (a : atom) (t : AtomTable) : Nat := 3 + (a.str t).length

/-- atom::encode: emits ERL_ATOM_EXT, the big-endian 16-bit length
truncated at MAXATOMLEN, then the unterminated bytes; returns the emitted
bytes together with the cursor advance idx += s - s0 = 3 + len. -/
def atom.encode (a : atom) (t : AtomTable) : List Nat × Nat :=
  let s := a.str t
  let len := min MAXATOMLEN s.length
  ([ERL_ATOM_EXT, len / 256, len % 256] ++ s.take len, 3 + len)

/-- The atom decode constructor atom(const char* buf, int& idx, size_t):
reads the tag byte, a 2-byte (ATOM_EXT) or 1-byte (SMALL_ATOM_EXT)
big-endian length, interns the following len bytes and advances the
cursor past the consumed bytes.  The source reads without bounds checks;
a short buffer, undefined behaviour there, is modelled as a decode
error (it cannot arise on the well-formed inputs considered). -/
def atom.decode (t : AtomTable) (buf : List Nat) (idx : Nat) :
    Except EixxErr (atom × AtomTable × Nat) :=
  match buf.get? idx with
  | none => .error .decodeErr
  | some tag =>
    if tag = ERL_ATOM_EXT then
      match buf.get? (idx + 1), buf.get? (idx + 2) with
      | some b1, some b2 =>
        let len := b1 * 256 + b2
        let s := (buf.drop (idx + 3)).take len
        if s.length = len then
          match t.lookup s with
          | .ok (i, t2) => .ok (⟨i⟩, t2, idx + 3 + len)
          | .error e => .error e
        else .error .decodeErr
      | _, _ => .error .decodeErr
    else if tag = ERL_SMALL_ATOM_EXT then
      match buf.get? (idx + 1) with
      | some b1 =>
        let s := (buf.drop (idx + 2)).take b1
        if s.length = b1 then
          match t.lookup s with
          | .ok (i, t2) => .ok (⟨i⟩, t2, idx + 2 + b1)
          | .error e => .error e
        else .error .decodeErr
      | none => .error .decodeErr
    else .error .decodeErr

/-- What claim C7 asserts of an interned atom: the emitted bytes take
exactly encode_size bytes, the cursor advances by exactly the emitted
length, and decoding the emitted bytes yields the same atom over the
unchanged table with the cursor just past the consumed bytes. -/
def atom_codec_spec (t : AtomTable) (a : atom) : Prop :=
  (atom.encode a t).1.length = atom.encode_size a t ∧
  (atom.encode a t).2 = (atom.encode a t).1.length ∧
  atom.decode t (atom.encode a t).1 0 = .ok (a, t, atom.encode_size a t)

/-- std::string::npos on a 64-bit platform. -/
def NPOS : Nat := 2 ^ 64 - 1

/-- std::string::find of a single byte: index of its first occurrence, or
npos when absent. -/
def strFind (s : ByteStr) (c : Nat) : Nat :=
  match s.findIdx? (fun b => b == c) with
  | some i => i
  | none => NPOS

/-- detail::check_node_length: rejects node names longer than MAXNODELEN
(kept as the parameter maxNodeLen, since the constant comes from the
external ei.h header) and empty node names. -/
def check_node_length (maxNodeLen : Nat) (len : Nat) : Except EixxErr Unit :=
  if len > maxNodeLen then .error .badArgument
  else if len = 0 then .error .badArgument
  else .ok ()

/-- make_node_name from atom.hpp.  The source guard is written
if (!s.find(64)) throw err_bad_argument(...): since std::string::find
returns the position, the logical negation is true exactly when the
separator occurs at position 0, not when it is absent.  Byte 64 is the
at-sign separator. -/
def make_node_name (maxNodeLen : Nat) (t : AtomTable) (s : ByteStr) :
    Except EixxErr (atom × AtomTable) :=
  if strFind s 64 == 0 then .error .badArgument
  else
    match check_node_length maxNodeLen s.length with
    | .error e => .error e
    | .ok _ => atom.ofString t s

/-- The low-28-bit mask 0x0fffffff applied to port and pid ids. -/
def MASK28 : Nat := 0x0fffffff

/-- The body of a port: creation is a uint8_t member, id a C++ int,
node an atom (port.hpp, struct port_blob, members in source order). -/
structure port_blob where
  creation : Nat
  id       : Int
  node     : atom
deriving DecidableEq

/-- port::init, called only from constructors: stores id & 0x0fffffff and
creation & 0x03.  The id member is a 32-bit int, so the bit-and acts on
its 32-bit two's-complement pattern; the creation argument undergoes the
int to uint8_t conversion (reduction mod 256) at the call. -/
def port_init (node : atom) (id creation : Int) : port_blob :=
  { creation := ((creation.emod 256).toNat) &&& 0x03,
    id := Int.ofNat (((id.emod (2 ^ 32)).toNat) &&& MASK28),
    node := node }

/-- The port class: a nullable reference-counted blob handle. -/
structure port where
  m_blob : Option port_blob
deriving DecidableEq

/-- The component constructor port(node, id, creation): checks the node
name length, then init.  Returns the constructed port or the thrown
err_bad_argument. -/
def port.make (maxNodeLen : Nat) (t : AtomTable) (node : atom) (id creation : Int) :
    Except EixxErr port :=
  match check_node_length maxNodeLen ((atom.str node t).length) with
  | .error e => .error e
  | .ok _ => .ok ⟨some (port_init node id creation)⟩

/-- port::node(): the stored node, or atom::null() for the null port. -/
def port.node (p : port) : atom :=
  match p.m_blob with
  | some b => b.node
  | none => atom.default

/-- port::id(): the stored id, or 0 for the null port. -/
def port.id (p : port) : Int :=
  match p.m_blob with
  | some b => b.id
  | none => 0

/-- port::creation(): the stored creation as an int, or 0. -/
def port.creation (p : port) : Int :=
  match p.m_blob with
  | some b => Int.ofNat b.creation
  | none => 0

/-- port::operator==: id, node (by atom index) and creation all equal. -/
def port.beq (p q : port) : Bool :=
  p.id == q.id && (port.node p).beq (port.node q) && p.creation == q.creation

/-- port::operator<: node compared first through atom::compare with the
greater node name ranking lower, then id ascending, then creation
ascending. -/
def port.lt (t : AtomTable) (p q : port) : Bool :=
  let n := atom.compare t (port.node p) (port.node q)
  if 0 < n then true
  else if n < 0 then false
  else if p.id < q.id then true
  else if q.id < p.id then false
  else if p.creation < q.creation then true
  else if q.creation < p.creation then false
  else false

/-- What claim C10 asserts of two ports: exactly one of p-below-q,
q-below-p and p-equals-q holds, and at equal id and creation the order
compares the node names in descending lexicographic order (p is below q
precisely when p's node name is the lexicographically greater one). -/
def port_order_spec (t : AtomTable) (p q : port) : Prop :=
  (port.lt t p q = true ∨ port.lt t q p = true ∨ port.beq p q = true) ∧
  ¬(port.lt t p q = true ∧ port.lt t q p = true) ∧
  ¬(port.lt t p q = true ∧ port.beq p q = true) ∧
  ¬(port.lt t q p = true ∧ port.beq p q = true) ∧
  (p.id = q.id → p.creation = q.creation →
    (port.lt t p q = true ↔
      lexLtBytes (atom.str (port.node q) t) (atom.str (port.node p) t) = true))

/-- Modelled from the spec: the pid class epid is not among the covered
sources.  Spec section 3: a pid body is (node atom, 28-bit id, 32-bit
serial, 2-bit creation); its creation field is reduced modulo 4 and its
id masked to the low 28 bits at construction. -/
structure epid_blob where
  node     : atom
  id       : Int
  serial   : Int
  creation : Int
deriving DecidableEq

/-- Modelled from the spec: pid construction from components applies the
section-3 masks. -/
def epid_init (node : atom) (id serial creation : Int) : epid_blob :=
  { node := node,
    id := id.emod (2 ^ 28),
    serial := serial.emod (2 ^ 32),
    creation := creation.emod 4 }

/-- Process identifiers, monitor references and term payloads enter the
mailbox logic only as opaque comparable values. -/
abbrev Pid := Nat

/-- Monitor references, opaque to the dispatcher. -/
abbrev Ref := Nat

/-- Term payloads (exit reasons), opaque to the dispatcher. -/
abbrev Term := Nat

/-- Control message types of transport_msg relevant to do_deliver; SEND
and REG_SEND stand for the ordinary payload-carrying types that take the
default branch. -/
inductive CtrlMsgType
  | LINK | UNLINK | MONITOR_P | DEMONITOR_P | MONITOR_P_EXIT
  | EXIT | EXIT_TT | EXIT2 | EXIT2_TT | SEND | REG_SEND
deriving DecidableEq

/-- A transport message as the dispatcher observes it: its control type,
sender pid, reference and error flag. -/
structure transport_msg where
  mtype     : CtrlMsgType
  sender    : Pid
  mref      : Ref
  errorFlag : Bool
deriving DecidableEq

/-- transport_msg::set_error_flag(). -/
def set_error_flag (m : transport_msg) : transport_msg := { m with errorFlag := true }

/-- The per-mailbox dispatcher state of basic_otp_mailbox: registered
name (atom index, 0 for the empty atom), link set, monitor map, message
queue and the freed timestamp (time_since_epoch().count(), 0 while the
mailbox has never been closed). -/
structure basic_otp_mailbox where
  self_pid     : Pid
  m_name       : Nat
  m_links      : List Pid
  m_monitors   : List (Ref × Pid)
  m_queue      : List transport_msg
  m_time_freed : Nat
deriving DecidableEq

/-- std::set insert: no duplicate is added. -/
def setInsert (p : Pid) (l : List Pid) : List Pid := if p ∈ l then l else l ++ [p]

/-- std::map insert of a key-value pair: a pre-existing key is kept. -/
def mapInsert (r : Ref) (p : Pid) (m : List (Ref × Pid)) : List (Ref × Pid) :=
  if m.any (fun e => e.1 == r) then m else m ++ [(r, p)]

/-- std::map erase by key (keys are unique in a std::map, so removing
every binding of the key is the same operation). -/
def mapErase (r : Ref) (m : List (Ref × Pid)) : List (Ref × Pid) :=
  m.filter (fun e => e.1 != r)

/-- basic_otp_mailbox::do_deliver, the non-throwing dispatch: LINK,
UNLINK, MONITOR_P and DEMONITOR_P update state and drop the message;
MONITOR_P_EXIT removes the monitor and enqueues; EXIT2 and EXIT2_TT
remove the sender link and enqueue; everything else, including EXIT and
EXIT_TT, takes the default branch and is enqueued. -/
def do_deliver (st : basic_otp_mailbox) (m : transport_msg) : basic_otp_mailbox :=
  match m.mtype with
  | .LINK => { st with m_links := setInsert m.sender st.m_links }
  | .UNLINK => { st with m_links := st.m_links.erase m.sender }
  | .MONITOR_P => { st with m_monitors := mapInsert m.mref m.sender st.m_monitors }
  | .DEMONITOR_P => { st with m_monitors := mapErase m.mref st.m_monitors }
  | .MONITOR_P_EXIT =>
      { st with m_monitors := mapErase m.mref st.m_monitors,
                m_queue := st.m_queue ++ [m] }
  | .EXIT2 =>
      { st with m_links := st.m_links.erase m.sender,
                m_queue := st.m_queue ++ [m] }
  | .EXIT2_TT =>
      { st with m_links := st.m_links.erase m.sender,
                m_queue := st.m_queue ++ [m] }
  | _ => { st with m_queue := st.m_queue ++ [m] }

/-- The two C++ exception families relevant to the dispatch guard: those
derived from std::exception, which the catch clause of do_deliver
handles, and everything else a C++ throw can raise, which it does not. -/
inductive cpp_exception
  | std_exception
  | other_exception
deriving DecidableEq

/-- do_deliver with its try block: exc records whether the side-effecting
dispatch throws, raised here by the first side-effecting operation of the
branch so no state update precedes it.  The catch clause of the source is
catch (std::exception&): such an exception leads to set_error_flag and
push_back of the message; any other exception propagates out and the
message is never enqueued. -/
def do_deliver_try (st : basic_otp_mailbox) (m : transport_msg)
    (exc : Option cpp_exception) : Except cpp_exception basic_otp_mailbox :=
  match exc with
  | none => .ok (do_deliver st m)
  | some .std_exception => .ok { st with m_queue := st.m_queue ++ [set_error_flag m] }
  | some .other_exception => .error .other_exception

/-- One exit-broadcast attempt of break_links, to a linked pid or to a
monitoring pid. -/
inductive send_event
  | exit_ev (dest : Pid) (reason : Term)
  | monitor_exit_ev (dest : Pid) (r : Ref) (reason : Term)
deriving DecidableEq

/-- A single node send, which may throw; fails says which destinations
fail, standing for whatever the node layer might raise. -/
def try_send (fails : send_event → Bool) (ev : send_event) : Except Unit Unit :=
  if fails ev then .error () else .ok ()

/-- The broadcast loops of break_links: every send sits in its own
try-catch with an empty catch-all handler, so a failure is recorded and
the loop continues with the next destination. -/
def attempt_all (fails : send_event → Bool) : List send_event → List (send_event × Bool)
  | [] => []
  | ev :: rest =>
    let r := match try_send fails ev with
      | .ok _ => true
      | .error _ => false
    (ev, r) :: attempt_all fails rest

/-- basic_otp_mailbox::break_links: sends one exit to every linked pid
and one monitor-exit to every monitor entry, each attempt individually
guarded, then clears both sets.  Returns the new state and the attempts
in order with their outcomes. -/
def break_links (fails : send_event → Bool) (mb : basic_otp_mailbox) (reason : Term) :
    basic_otp_mailbox × List (send_event × Bool) :=
  let evs := mb.m_links.map (fun p => send_event.exit_ev p reason)
      ++ mb.m_monitors.map (fun rp => send_event.monitor_exit_ev rp.2 rp.1 reason)
  ({ mb with m_links := [], m_monitors := [] }, attempt_all fails evs)

/-- basic_otp_mailbox::close(reason, a_reg_remove): stamps the freed
time, resets the queue, optionally deregisters from the node, broadcasts
through break_links and clears the registered name to the empty atom.
Returns the final state, the broadcast attempts and whether the node
registry was asked to remove the mailbox. -/
def close (fails : send_event → Bool) (mb : basic_otp_mailbox) (reason : Term)
    (a_reg_remove : Bool) (now : Nat) :
    basic_otp_mailbox × List (send_event × Bool) × Bool :=
  let mb1 := { mb with m_time_freed := now, m_queue := [] }
  let step := break_links fails mb1 reason
  ({ step.1 with m_name := 0 }, step.2, a_reg_remove)

/-- What claim C3 asserts of one close call: the broadcast attempts are
exactly one exit per linked pid followed by one monitor-exit per monitor
entry, each therefore attempted exactly once, and the final state has
empty links, empty monitors, the name cleared to the empty atom and the
queue reset. -/
def close_spec_holds (fails : send_event → Bool) (mb : basic_otp_mailbox)
    (reason : Term) (dereg : Bool) (now : Nat) : Prop :=
  ((close fails mb reason dereg now).2.1.map Prod.fst
      = mb.m_links.map (fun p => send_event.exit_ev p reason)
        ++ mb.m_monitors.map (fun rp => send_event.monitor_exit_ev rp.2 rp.1 reason)) ∧
  (∀ p ∈ mb.m_links,
      ((close fails mb reason dereg now).2.1.map Prod.fst).count
          (send_event.exit_ev p reason) = 1) ∧
  (∀ rp ∈ mb.m_monitors,
      ((close fails mb reason dereg now).2.1.map Prod.fst).count
          (send_event.monitor_exit_ev rp.2 rp.1 reason) = 1) ∧
  (close fails mb reason dereg now).1.m_links = [] ∧
  (close fails mb reason dereg now).1.m_monitors = [] ∧
  (close fails mb reason dereg now).1.m_name = 0 ∧
  (close fails mb reason dereg now).1.m_queue = []

/-- What claim C6 asserts of a port constructed from components, plus the
same masks on the spec-modelled pid: stored and returned id and creation
are already reduced modulo 2 to the 28 and 4 respectively, creation 4
reduces to 0, and the pid test values of test_eterm.cpp come out as the
test expects. -/
def port_pid_mask_spec (nd : atom) (id serial creation : Int) (p : port) : Prop :=
  p.id = id.emod (2 ^ 28) ∧
  p.creation = creation.emod 4 ∧
  (port_init nd id 4).creation = 0 ∧
  (epid_init nd id serial creation).id = id.emod (2 ^ 28) ∧
  (epid_init nd id serial creation).serial = serial.emod (2 ^ 32) ∧
  (epid_init nd id serial creation).creation = creation.emod 4 ∧
  epid_init nd 1 2 3 = ⟨nd, 1, 2, 3⟩ ∧
  (epid_init nd 1 2 4).creation = 0

/-- Observable outcome of one run of the handler wrapper that
async_receive registers with the queue: the boolean handed back to
async_dequeue and whether the user handler h ran at all. -/
structure recv_outcome where
  result      : Bool
  handler_ran : Bool
deriving DecidableEq

/-- The lambda async_receive passes to m_queue->async_dequeue, for a
mailbox in state mb: it first tests m_time_freed.time_since_epoch()
.count() == 0 and returns false outright when the count is zero; only
otherwise does it run the user handler, with a null message when the
error code ec is set and with the dequeued message otherwise. -/
def async_receive_handler (mb : basic_otp_mailbox) (h : Option transport_msg → Bool)
    (a_msg : Option transport_msg) (ec : Bool) : recv_outcome :=
  if mb.m_time_freed == 0 then ⟨false, false⟩
  else if ec then ⟨h none, true⟩
  else ⟨h a_msg, true⟩

/-- Observable outcome of one run of the handler wrapper that
async_match registers: the boolean result, whether the timeout callback
ran, and whether a dequeued message was matched against the pattern. -/
structure match_outcome where
  result         : Bool
  on_timeout_ran : Bool
  match_ran      : Bool
deriving DecidableEq

/-- The lambda async_match passes to async_dequeue: the same leading
m_time_freed count == 0 test returning false, then the timeout callback
on ec, otherwise a pattern match on the message and true. -/
def async_match_handler (mb : basic_otp_mailbox) (a_msg : Option transport_msg)
    (ec : Bool) : match_outcome :=
  if mb.m_time_freed == 0 then ⟨false, false, false⟩
  else if ec then ⟨false, true, false⟩
  else ⟨true, false, a_msg.isSome⟩

section HelperLemmas

/-- tblIndexOf finds the index of an entry of a duplicate-free list. -/
theorem tblIndexOf_get_of_nodup {l : List ByteStr} {i : Nat} {s : ByteStr}
    (hn : l.Nodup) (hget : l.get? i = some s) : tblIndexOf s l = some i := by
  induction l generalizing i with
  | nil => simp at hget
  | cons e rest ih =>
    cases i with
    | zero =>
      simp only [List.get?] at hget
      cases hget
      simp [tblIndexOf]
    | succ j =>
      simp only [List.get?] at hget
      have hmem : s ∈ rest := List.get?_mem hget
      have hne : e ≠ s := by
        intro h
        exact (List.nodup_cons.mp hn).1 (h ▸ hmem)
      simp only [tblIndexOf, if_neg hne]
      rw [ih (List.nodup_cons.mp hn).2 hget]
      rfl

/-- Appending a fresh entry makes it findable at the old length. -/
theorem tblIndexOf_append_self {l : List ByteStr} {s : ByteStr}
    (h : tblIndexOf s l = none) : tblIndexOf s (l ++ [s]) = some l.length := by
  induction l with
  | nil => simp [tblIndexOf]
  | cons e rest ih =>
    simp only [tblIndexOf] at h ⊢
    by_cases he : e = s
    · simp [he] at h
    · simp only [if_neg he] at h ⊢
      cases hr : tblIndexOf s rest with
      | none => simp only [List.append_eq] at ih ⊢; rw [ih hr]; rfl
      | some j => rw [hr] at h; simp at h

/-- Bytes of a byte string with no embedded NUL survive c_str unharmed. -/
theorem cstrOf_eq_self {s : ByteStr} (h : (0 : Nat) ∉ s) : cstrOf s = s := by
  induction s with
  | nil => rfl
  | cons a as ih =>
    simp only [List.mem_cons, not_or] at h
    have ha : (a != 0) = true := by
      simp only [bne_iff_ne, ne_eq]
      exact fun hh => h.1 hh.symm
    simp only [cstrOf, List.takeWhile_cons, ha, if_true]
    exact congrArg (a :: ·) (ih h.2)

/-- lexCmp returns zero exactly on equal byte strings. -/
theorem lexCmp_eq_zero_iff : ∀ s t : ByteStr, lexCmp s t = 0 ↔ s = t := by
  intro s
  induction s with
  | nil => intro t; cases t <;> simp [lexCmp]
  | cons a as ih =>
    intro t
    cases t with
    | nil => simp [lexCmp]
    | cons b bs =>
      simp only [lexCmp]
      rcases Nat.lt_trichotomy a b with h | h | h
      · rw [if_pos h]
        constructor
        · intro hh; exact absurd hh (by decide)
        · intro hh; injection hh with h1 _; omega
      · subst h
        rw [if_neg (by omega), if_neg (by omega)]
        rw [ih bs]
        constructor
        · intro hh; rw [hh]
        · intro hh; injection hh
      · rw [if_neg (by omega), if_pos h]
        constructor
        · intro hh; exact absurd hh (by decide)
        · intro hh; injection hh with h1 _; omega

/-- lexCmp is negative exactly when the left string is lexicographically
smaller. -/
theorem lexCmp_neg_iff : ∀ s t : ByteStr, lexCmp s t < 0 ↔ lexLtBytes s t = true := by
  intro s
  induction s with
  | nil => intro t; cases t <;> simp [lexCmp, lexLtBytes]
  | cons a as ih =>
    intro t
    cases t with
    | nil => simp [lexCmp, lexLtBytes]
    | cons b bs =>
      simp only [lexCmp, lexLtBytes]
      rcases Nat.lt_trichotomy a b with h | h | h
      · rw [if_pos h]; simp [h]
      · subst h
        rw [if_neg (by omega), if_neg (by omega)]
        simp [ih bs]
      · rw [if_neg (by omega), if_pos h]
        constructor
        · intro hh; exact absurd hh (by decide)
        · intro hh
          simp only [Bool.or_eq_true, decide_eq_true_eq, Bool.and_eq_true, beq_iff_eq] at hh
          rcases hh with hh | ⟨hh, _⟩ <;> omega

/-- lexCmp is positive exactly when the right string is lexicographically
smaller. -/
theorem lexCmp_pos_iff : ∀ s t : ByteStr, 0 < lexCmp s t ↔ lexLtBytes t s = true := by
  intro s
  induction s with
  | nil => intro t; cases t <;> simp [lexCmp, lexLtBytes]
  | cons a as ih =>
    intro t
    cases t with
    | nil => simp [lexCmp, lexLtBytes]
    | cons b bs =>
      simp only [lexCmp, lexLtBytes]
      rcases Nat.lt_trichotomy a b with h | h | h
      · rw [if_pos h]
        constructor
        · intro hh; exact absurd hh (by decide)
        · intro hh
          simp only [Bool.or_eq_true, decide_eq_true_eq, Bool.and_eq_true, beq_iff_eq] at hh
          rcases hh with hh | ⟨hh, _⟩ <;> omega
      · subst h
        rw [if_neg (by omega), if_neg (by omega)]
        simp [ih bs]
      · rw [if_neg (by omega), if_pos h]; simp [h]

end HelperLemmas

section ClaimC1

/-- C1: the claim fails on the code.  The handler wrappers registered by
async_receive and async_match test m_time_freed count == 0 and return
false on zero, the opposite of the specified guard: on a live mailbox
(m_time_freed = 0, first and third conjuncts) the wrapper returns false
without ever invoking the user handler or matching the message, and on a
closed mailbox (m_time_freed = 7, second and fourth conjuncts) it runs
the user handler or pattern match as if the mailbox were live, even
re-arming when the handler answers true. -/
theorem c1_handler_wrapper_eval :
    async_receive_handler ⟨10, 0, [], [], [], 0⟩ (fun _ => true)
        (some ⟨.SEND, 5, 0, false⟩) false = ⟨false, false⟩ ∧
    async_receive_handler ⟨10, 0, [], [], [], 7⟩ (fun _ => true)
        (some ⟨.SEND, 5, 0, false⟩) false = ⟨true, true⟩ ∧
    async_match_handler ⟨10, 0, [], [], [], 0⟩ (some ⟨.SEND, 5, 0, false⟩) false
        = ⟨false, false, false⟩ ∧
    async_match_handler ⟨10, 0, [], [], [], 7⟩ (some ⟨.SEND, 5, 0, false⟩) false
        = ⟨true, false, true⟩ :=
  ⟨rfl, rfl, rfl, rfl⟩

end ClaimC1

section ClaimC2

/-- C2 counterexample: an EXIT message from pid 5 delivered to a mailbox
whose link set is exactly pid 5.  do_deliver enqueues it through the
default branch and leaves the link set untouched, whereas the claim
requires the sender removed from the links (which would leave the link
set empty). -/
theorem c2_exit_counterexample :
    do_deliver ⟨10, 0, [5], [], [], 0⟩ ⟨.EXIT, 5, 0, false⟩
      = ⟨10, 0, [5], [], [⟨.EXIT, 5, 0, false⟩], 0⟩ ∧
    (⟨10, 0, [5], [], [⟨.EXIT, 5, 0, false⟩], 0⟩ : basic_otp_mailbox)
      ≠ ⟨10, 0, ([5] : List Pid).erase 5, [], [⟨.EXIT, 5, 0, false⟩], 0⟩ := by
  exact ⟨rfl, by decide⟩

/-- C2 amended: only EXIT2 and EXIT2_TT messages remove the sender pid
from the links set before being enqueued; EXIT and EXIT_TT messages take
the default branch of do_deliver and are enqueued with the links set
unchanged. -/
theorem c2_exit2_amended (st : basic_otp_mailbox) (sender : Pid) (r : Ref) (e : Bool) :
    do_deliver st ⟨.EXIT2, sender, r, e⟩
      = { st with m_links := st.m_links.erase sender,
                  m_queue := st.m_queue ++ [⟨.EXIT2, sender, r, e⟩] } ∧
    do_deliver st ⟨.EXIT2_TT, sender, r, e⟩
      = { st with m_links := st.m_links.erase sender,
                  m_queue := st.m_queue ++ [⟨.EXIT2_TT, sender, r, e⟩] } ∧
    do_deliver st ⟨.EXIT, sender, r, e⟩
      = { st with m_queue := st.m_queue ++ [⟨.EXIT, sender, r, e⟩] } ∧
    do_deliver st ⟨.EXIT_TT, sender, r, e⟩
      = { st with m_queue := st.m_queue ++ [⟨.EXIT_TT, sender, r, e⟩] } :=
  ⟨rfl, rfl, rfl, rfl⟩

end ClaimC2

section ClaimC4

/-- C4: the claim is right and the code is wrong.  The guard of
make_node_name is if (!s.find(at-sign)) throw, which rejects exactly the
strings whose first byte is the separator instead of the strings lacking
it: the separator-free name abc (first conjunct) is accepted and interned
even though its atom violates the node-name invariant, and the name
at-h (second conjunct), which contains the separator at position 0 and
has length in range, is rejected.  The remaining conjuncts show the
in-range well-formed name a-at-h accepted and the empty and over-long
names rejected by check_node_length. -/
theorem c4_make_node_name_eval :
    make_node_name 64 (AtomTable.init 10) [97, 98, 99]
      = .ok (⟨1⟩, ⟨[[], [97, 98, 99]], 10⟩) ∧
    make_node_name 64 (AtomTable.init 10) [64, 104] = .error .badArgument ∧
    make_node_name 64 (AtomTable.init 10) [97, 64, 104]
      = .ok (⟨1⟩, ⟨[[], [97, 64, 104]], 10⟩) ∧
    make_node_name 64 (AtomTable.init 10) [] = .error .badArgument ∧
    make_node_name 64 (AtomTable.init 10) (List.replicate 65 97) = .error .badArgument :=
  ⟨rfl, rfl, rfl, rfl, rfl⟩

end ClaimC4

section ClaimC5

/-- C5 counterexample: a dispatch that throws an exception not derived
from std::exception.  The catch clause of do_deliver is
catch (std::exception&), so the exception propagates out of do_deliver
and no resulting mailbox state exists: the message is lost rather than
enqueued with its error flag set. -/
theorem c5_other_exception_counterexample :
    do_deliver_try ⟨10, 0, [], [], [], 0⟩ ⟨.SEND, 5, 0, false⟩ (some .other_exception)
      = .error .other_exception ∧
    (do_deliver_try ⟨10, 0, [], [], [], 0⟩ ⟨.SEND, 5, 0, false⟩
        (some .other_exception)).toOption = none :=
  ⟨rfl, rfl⟩

/-- C5 amended: when the exception thrown during the side-effecting
dispatch derives from std::exception, the catch clause enqueues the
message with its error flag set (even for control types that are dropped
on the exception-free path); an exception outside the std::exception
hierarchy escapes do_deliver, and the exception-free path behaves as
do_deliver. -/
theorem c5_dispatch_exception_amended (st : basic_otp_mailbox) (m : transport_msg) :
    (∃ st2, do_deliver_try st m (some .std_exception) = .ok st2 ∧
        st2.m_queue = st.m_queue ++ [set_error_flag m] ∧
        set_error_flag m ∈ st2.m_queue ∧ (set_error_flag m).errorFlag = true) ∧
    do_deliver_try st m (some .other_exception) = .error .other_exception ∧
    do_deliver_try st m none = .ok (do_deliver st m) := by
  refine ⟨⟨{ st with m_queue := st.m_queue ++ [set_error_flag m] }, rfl, rfl, ?_, rfl⟩,
    rfl, rfl⟩
  simp

end ClaimC5

section ClaimC3

/-- Attempting a list of sends, each in its own try-catch, attempts every
send in order whatever the failures. -/
theorem attempt_all_fst (fails : send_event → Bool) :
    ∀ l : List send_event, (attempt_all fails l).map Prod.fst = l := by
  intro l
  induction l with
  | nil => rfl
  | cons ev rest ih => simp [attempt_all, ih]

/-- C3: close(reason, dereg) attempts exactly one EXIT send carrying the
reason to each linked pid and exactly one MONITOR_P_EXIT send carrying
the reason to each monitor entry, whatever per-destination failures fails
produces (the per-send try-catch swallows them), and afterwards the links
set and monitors map are empty and the registered name is the empty
atom. -/
theorem c3_close_broadcast (fails : send_event → Bool) (mb : basic_otp_mailbox)
    (reason : Term) (dereg : Bool) (now : Nat)
    (h1 : mb.m_links.Nodup) (h2 : mb.m_monitors.Nodup) :
    close_spec_holds fails mb reason dereg now := by
  have hinj1 : Function.Injective (fun p => send_event.exit_ev p reason) := by
    intro x y h
    simpa using h
  have hinj2 :
      Function.Injective (fun rp : Ref × Pid => send_event.monitor_exit_ev rp.2 rp.1 reason) := by
    intro x y h
    simp only [send_event.monitor_exit_ev.injEq] at h
    cases x; cases y
    simp only [Prod.mk.injEq]
    exact ⟨h.2.1, h.1⟩
  have hfst : (close fails mb reason dereg now).2.1.map Prod.fst
      = mb.m_links.map (fun p => send_event.exit_ev p reason)
        ++ mb.m_monitors.map (fun rp => send_event.monitor_exit_ev rp.2 rp.1 reason) := by
    simp [close, break_links, attempt_all_fst]
  refine ⟨hfst, ?_, ?_, by simp [close, break_links], by simp [close, break_links],
    by simp [close, break_links], by simp [close, break_links]⟩
  · intro p hp
    rw [hfst, List.count_append]
    have hc1 : (mb.m_links.map (fun p => send_event.exit_ev p reason)).count
        (send_event.exit_ev p reason) = 1 := by
      rw [List.count_map_of_injective _ _ hinj1]
      exact List.count_eq_one_of_mem h1 hp
    have hc2 : (mb.m_monitors.map
        (fun rp => send_event.monitor_exit_ev rp.2 rp.1 reason)).count
        (send_event.exit_ev p reason) = 0 := by
      rw [List.count_eq_zero]
      simp
    omega
  · intro rp hrp
    rw [hfst, List.count_append]
    have hc1 : (mb.m_links.map (fun p => send_event.exit_ev p reason)).count
        (send_event.monitor_exit_ev rp.2 rp.1 reason) = 0 := by
      rw [List.count_eq_zero]
      simp
    have hc2 : (mb.m_monitors.map
        (fun q => send_event.monitor_exit_ev q.2 q.1 reason)).count
        (send_event.monitor_exit_ev rp.2 rp.1 reason) = 1 := by
      rw [List.count_map_of_injective _ _ hinj2]
      exact List.count_eq_one_of_mem h2 hrp
    omega

/-- C3 witness: a mailbox with two links and one monitor, every send
failing, still attempts each broadcast exactly once and ends cleared. -/
theorem c3_close_broadcast_witness :
    ([1, 2] : List Pid).Nodup ∧ ([(7, 3)] : List (Ref × Pid)).Nodup ∧
    close_spec_holds (fun _ => true) ⟨10, 3, [1, 2], [(7, 3)], [⟨.SEND, 5, 0, false⟩], 0⟩
      9 true 5 :=
  ⟨by decide, by decide,
    c3_close_broadcast (fun _ => true) ⟨10, 3, [1, 2], [(7, 3)], [⟨.SEND, 5, 0, false⟩], 0⟩
      9 true 5 (by decide) (by decide)⟩

end ClaimC3

section ClaimC6

/-- The 32-bit bit-and of an id with the low-28-bit mask is reduction of
the id modulo 2 to the 28. -/
theorem port_init_id_eq (id : Int) :
    Int.ofNat (((id.emod (2 ^ 32)).toNat) &&& MASK28) = id.emod (2 ^ 28) := by
  have h1 : MASK28 = 2 ^ 28 - 1 := by norm_num [MASK28]
  rw [h1, Nat.and_pow_two_sub_one_eq_mod, Int.ofNat_eq_natCast]
  have h2 : (2 : Int) ^ 32 = 4294967296 := by norm_num
  have h3 : (2 : Int) ^ 28 = 268435456 := by norm_num
  have h4 : (2 : Nat) ^ 28 = 268435456 := by norm_num
  rw [h2, h3, h4]
  show ((((id % 4294967296).toNat % 268435456 : Nat) : Int)) = id % 268435456
  omega

/-- The uint8_t conversion followed by the bit-and with 3 is reduction of
the creation modulo 4. -/
theorem port_init_creation_eq (creation : Int) :
    Int.ofNat (((creation.emod 256).toNat) &&& 3) = creation.emod 4 := by
  rw [show (3 : Nat) = 2 ^ 2 - 1 from by norm_num, Nat.and_pow_two_sub_one_eq_mod,
    Int.ofNat_eq_natCast]
  have h4 : (2 : Nat) ^ 2 = 4 := by norm_num
  rw [h4]
  show ((((creation % 256).toNat % 4 : Nat) : Int)) = creation % 4
  omega

/-- C6: a port constructed from components stores and returns its id
masked to the low 28 bits and its creation reduced modulo 4 (creation 4
gives creation() = 0), and the spec-modelled pid masks its components the
same way, matching the test_pid expectations. -/
theorem c6_port_pid_masking (maxLen : Nat) (t : AtomTable) (nd : atom)
    (id serial creation : Int) (p : port)
    (h : port.make maxLen t nd id creation = .ok p) :
    port_pid_mask_spec nd id serial creation p := by
  have hp : p = ⟨some (port_init nd id creation)⟩ := by
    unfold port.make at h
    cases hc : check_node_length maxLen ((atom.str nd t).length) with
    | error e => rw [hc] at h; exact absurd h (by simp)
    | ok u =>
      rw [hc] at h
      injection h with h2
      exact h2.symm
  subst hp
  refine ⟨?_, ?_, ?_, rfl, rfl, rfl, ?_, ?_⟩
  · exact port_init_id_eq id
  · exact port_init_creation_eq creation
  · show ((4 : Int).emod 256).toNat &&& 0x03 = 0
    decide
  · simp only [epid_init, epid_blob.mk.injEq]
    exact ⟨trivial, by decide, by decide, by decide⟩
  · show (4 : Int).emod 4 = 0
    decide

/-- C6 witness: the port with node a-at-h, id 5, creation 6 is
constructed successfully and satisfies the masking claims. -/
theorem c6_port_pid_masking_witness :
    port.make 64 ⟨[[], [97, 64, 104]], 10⟩ ⟨1⟩ 5 6 = .ok ⟨some (port_init ⟨1⟩ 5 6)⟩ ∧
    port_pid_mask_spec ⟨1⟩ 5 2 6 ⟨some (port_init ⟨1⟩ 5 6)⟩ :=
  ⟨rfl, c6_port_pid_masking 64 ⟨[[], [97, 64, 104]], 10⟩ ⟨1⟩ 5 2 6 _ rfl⟩

end ClaimC6

section ClaimC9

/-- C9: interning is stable and index 0 is the empty atom.  If a lookup
of s succeeds with index i and table t2, looking s up again in t2 gives
the same index and leaves the table unchanged; looking up the empty
string returns index 0 with no allocation; and a default-constructed
atom has index 0. -/
theorem c9_lookup_stable (t t2 : AtomTable) (s : ByteStr) (i : Nat)
    (h : t.lookup s = .ok (i, t2))
    (hhead : t.entries.head? = some ([] : ByteStr)) :
    t2.lookup s = .ok (i, t2) ∧ t.lookup [] = .ok (0, t) ∧ atom.default.m_index = 0 := by
  refine ⟨?_, ?_, rfl⟩
  · unfold AtomTable.lookup at h ⊢
    by_cases hl : s.length > MAXATOMLEN
    · rw [if_pos hl] at h
      exact absurd h (by simp)
    · rw [if_neg hl] at h
      rw [if_neg hl]
      cases hidx : tblIndexOf s t.entries with
      | some j =>
        rw [hidx] at h
        injection h with h2
        obtain ⟨hij, ht⟩ := Prod.mk.injEq .. ▸ h2
        subst hij
        subst ht
        rw [hidx]
      | none =>
        rw [hidx] at h
        by_cases hful : t.capacity ≤ t.entries.length
        · rw [if_pos hful] at h
          exact absurd h (by simp)
        · rw [if_neg hful] at h
          injection h with h2
          obtain ⟨hij, ht⟩ := Prod.mk.injEq .. ▸ h2
          subst hij
          subst ht
          rw [tblIndexOf_append_self hidx]
  · cases hent : t.entries with
    | nil => rw [hent] at hhead; simp at hhead
    | cons e rest =>
      rw [hent] at hhead
      simp only [List.head?] at hhead
      injection hhead with he
      subst he
      unfold AtomTable.lookup
      rw [if_neg (by simp [MAXATOMLEN])]
      have : tblIndexOf ([] : ByteStr) t.entries = some 0 := by
        rw [hent]
        simp [tblIndexOf]
      rw [this]

/-- C9 witness: interning abc into a fresh table of capacity 10 yields
index 1, re-interning is stable, and the empty lookup returns 0. -/
theorem c9_lookup_stable_witness :
    (AtomTable.init 10).lookup [97, 98, 99] = .ok (1, ⟨[[], [97, 98, 99]], 10⟩) ∧
    (AtomTable.init 10).entries.head? = some ([] : ByteStr) ∧
    ((⟨[[], [97, 98, 99]], 10⟩ : AtomTable).lookup [97, 98, 99]
        = .ok (1, ⟨[[], [97, 98, 99]], 10⟩) ∧
      (AtomTable.init 10).lookup [] = .ok (0, AtomTable.init 10) ∧
      atom.default.m_index = 0) :=
  ⟨rfl, rfl, c9_lookup_stable _ _ _ _ rfl rfl⟩

end ClaimC9

section ClaimC7

/-- Reduction of the decode constructor on an ATOM_EXT buffer with a zero
high length byte. -/
theorem atom_decode_cons (t : AtomTable) (b2 : Nat) (s : ByteStr) :
    atom.decode t (100 :: 0 :: b2 :: s) 0
      = (if (s.take (0 * 256 + b2)).length = 0 * 256 + b2 then
          match t.lookup (s.take (0 * 256 + b2)) with
          | .ok (i, t2) => .ok (⟨i⟩, t2, 0 + 3 + (0 * 256 + b2))
          | .error e => .error e
        else .error .decodeErr) := rfl

/-- C7: encoding an interned atom of a well-formed table emits exactly
encode_size = 3 + length bytes in ATOM_EXT form, advances the cursor by
exactly the emitted length, and decoding the emitted bytes returns the
same atom, the unchanged table, and the cursor just past those bytes. -/
theorem c7_atom_codec_roundtrip (t : AtomTable) (a : atom)
    (hw : t.WF) (ha : a.m_index < t.entries.length) :
    atom_codec_spec t a := by
  have hget : t.entries.get? a.m_index = some (t.entries.get ⟨a.m_index, ha⟩) :=
    List.get?_eq_get ha
  set s : ByteStr := t.entries.get ⟨a.m_index, ha⟩ with hs
  have hstr : atom.str a t = s := by
    unfold atom.str AtomTable.get
    rw [List.getD_eq_get?, hget]
    rfl
  have hmem : s ∈ t.entries := List.get_mem t.entries a.m_index ha
  have hlen : s.length ≤ 255 := hw.len_le s hmem
  have hmin : min MAXATOMLEN s.length = s.length := by
    simp only [MAXATOMLEN]
    omega
  have henc : atom.encode a t = (100 :: 0 :: s.length :: s, 3 + s.length) := by
    unfold atom.encode
    rw [hstr]
    simp only [hmin, ERL_ATOM_EXT]
    rw [Nat.div_eq_of_lt (by omega), Nat.mod_eq_of_lt (by omega), List.take_length]
    rfl
  have hsize : atom.encode_size a t = 3 + s.length := by
    unfold atom.encode_size
    rw [hstr]
  have hlook : t.lookup s = .ok (a.m_index, t) := by
    unfold AtomTable.lookup
    rw [if_neg (by simp only [MAXATOMLEN]; omega),
      tblIndexOf_get_of_nodup hw.nodup hget]
  refine ⟨?_, ?_, ?_⟩
  · rw [henc, hsize]
    simp only [List.length_cons]
    omega
  · rw [henc]
    simp only [List.length_cons]
    omega
  · rw [henc, hsize, atom_decode_cons]
    simp only [Nat.zero_mul, Nat.zero_add, List.take_length, if_pos rfl, hlook]
    have hax : a = ⟨a.m_index⟩ := rfl
    rw [← hax]
    rfl

/-- C7 witness: the atom abc interned at index 1 of a small well-formed
table round-trips through encode and the decode constructor. -/
theorem c7_atom_codec_roundtrip_witness :
    (⟨[[], [97, 98, 99]], 10⟩ : AtomTable).WF ∧ 1 < 2 ∧
    atom_codec_spec ⟨[[], [97, 98, 99]], 10⟩ ⟨1⟩ :=
  ⟨⟨by decide, by decide, rfl⟩, by decide,
    c7_atom_codec_roundtrip ⟨[[], [97, 98, 99]], 10⟩ ⟨1⟩ ⟨by decide, by decide, rfl⟩
      (by decide)⟩

end ClaimC7

section AtomOrderLemmas

/-- The string behind a valid atom index is the table entry there. -/
theorem atom_str_get (t : AtomTable) (a : atom) (ha : a.m_index < t.entries.length) :
    atom.str a t = t.entries.get ⟨a.m_index, ha⟩ := by
  unfold atom.str AtomTable.get
  rw [List.getD_eq_get?, List.get?_eq_get ha]
  rfl

/-- The string behind a valid atom index is an entry of the table. -/
theorem atom_str_mem (t : AtomTable) (a : atom) (ha : a.m_index < t.entries.length) :
    atom.str a t ∈ t.entries := by
  rw [atom_str_get t a ha]
  exact List.get_mem t.entries a.m_index ha

/-- Under the distinct-strings invariant, valid indices agree exactly
when the interned strings agree. -/
theorem atom_str_inj (t : AtomTable) (hw : t.WF) (a b : atom)
    (ha : a.m_index < t.entries.length) (hb : b.m_index < t.entries.length) :
    a.m_index = b.m_index ↔ atom.str a t = atom.str b t := by
  rw [atom_str_get t a ha, atom_str_get t b hb]
  constructor
  · intro h
    simp only [h]
  · intro h
    have h2 := (hw.nodup.get_inj_iff).mp h
    exact congrArg Fin.val h2

/-- strcmp agrees with full lexicographic comparison on NUL-free byte
strings. -/
theorem strcmpB_eq_lexCmp (s1 s2 : ByteStr) (h1 : (0 : Nat) ∉ s1) (h2 : (0 : Nat) ∉ s2) :
    strcmpB s1 s2 = lexCmp s1 s2 := by
  unfold strcmpB
  rw [cstrOf_eq_self h1, cstrOf_eq_self h2]

/-- Over a well-formed NUL-free table, atom::compare returns zero exactly
on equal indices. -/
theorem atom_compare_zero_iff (t : AtomTable) (hw : t.WF)
    (hnul : ∀ s ∈ t.entries, (0 : Nat) ∉ s) (a b : atom)
    (ha : a.m_index < t.entries.length) (hb : b.m_index < t.entries.length) :
    atom.compare t a b = 0 ↔ a.m_index = b.m_index := by
  unfold atom.compare
  by_cases h : a.m_index = b.m_index
  · simp [h]
  · rw [if_neg h]
    constructor
    · intro hc
      exfalso
      rw [strcmpB_eq_lexCmp _ _ (hnul _ (atom_str_mem t a ha)) (hnul _ (atom_str_mem t b hb))]
        at hc
      exact h ((atom_str_inj t hw a b ha hb).mpr ((lexCmp_eq_zero_iff _ _).mp hc))
    · intro hc
      exact absurd hc h

/-- Over a well-formed NUL-free table, atom::compare is negative exactly
when the left atom's bytes are lexicographically smaller. -/
theorem atom_compare_neg_iff (t : AtomTable) (hw : t.WF)
    (hnul : ∀ s ∈ t.entries, (0 : Nat) ∉ s) (a b : atom)
    (ha : a.m_index < t.entries.length) (hb : b.m_index < t.entries.length) :
    atom.compare t a b < 0 ↔ lexLtBytes (atom.str a t) (atom.str b t) = true := by
  unfold atom.compare
  by_cases h : a.m_index = b.m_index
  · rw [if_pos h, (atom_str_inj t hw a b ha hb).mp h]
    constructor
    · intro hc
      exact absurd hc (by omega)
    · intro hc
      exfalso
      have h2 := (lexCmp_neg_iff _ _).mpr hc
      have h3 := (lexCmp_eq_zero_iff (atom.str b t) (atom.str b t)).mpr rfl
      omega
  · rw [if_neg h,
      strcmpB_eq_lexCmp _ _ (hnul _ (atom_str_mem t a ha)) (hnul _ (atom_str_mem t b hb))]
    exact lexCmp_neg_iff _ _

/-- Over a well-formed NUL-free table, atom::compare is positive exactly
when the right atom's bytes are lexicographically smaller. -/
theorem atom_compare_pos_iff (t : AtomTable) (hw : t.WF)
    (hnul : ∀ s ∈ t.entries, (0 : Nat) ∉ s) (a b : atom)
    (ha : a.m_index < t.entries.length) (hb : b.m_index < t.entries.length) :
    0 < atom.compare t a b ↔ lexLtBytes (atom.str b t) (atom.str a t) = true := by
  unfold atom.compare
  by_cases h : a.m_index = b.m_index
  · rw [if_pos h, (atom_str_inj t hw a b ha hb).mp h]
    constructor
    · intro hc
      exact absurd hc (by omega)
    · intro hc
      exfalso
      have h2 := (lexCmp_pos_iff _ _).mpr hc
      have h3 := (lexCmp_eq_zero_iff (atom.str b t) (atom.str b t)).mpr rfl
      omega
  · rw [if_neg h,
      strcmpB_eq_lexCmp _ _ (hnul _ (atom_str_mem t a ha)) (hnul _ (atom_str_mem t b hb))]
    exact lexCmp_pos_iff _ _

end AtomOrderLemmas

section ClaimC8

/-- C8 counterexample: the atoms with bytes 97 0 98 and 97 0 99, interned
at indices 1 and 2 of a fresh table, have different indices and different
byte strings, and the first is lexicographically below the second; yet
operator-below returns false and compare returns 0 because strcmp stops
at the embedded NUL byte, falsifying both the claimed lexicographic
ordering and the claimed compare-zero-iff-equal property. -/
theorem c8_nul_counterexample :
    (AtomTable.init 10).lookup [97, 0, 98] = .ok (1, ⟨[[], [97, 0, 98]], 10⟩) ∧
    (⟨[[], [97, 0, 98]], 10⟩ : AtomTable).lookup [97, 0, 99]
      = .ok (2, ⟨[[], [97, 0, 98], [97, 0, 99]], 10⟩) ∧
    atom.beq ⟨1⟩ ⟨2⟩ = false ∧
    atom.str ⟨1⟩ ⟨[[], [97, 0, 98], [97, 0, 99]], 10⟩
      ≠ atom.str ⟨2⟩ ⟨[[], [97, 0, 98], [97, 0, 99]], 10⟩ ∧
    lexLtBytes (atom.str ⟨1⟩ ⟨[[], [97, 0, 98], [97, 0, 99]], 10⟩)
      (atom.str ⟨2⟩ ⟨[[], [97, 0, 98], [97, 0, 99]], 10⟩) = true ∧
    atom.lt ⟨[[], [97, 0, 98], [97, 0, 99]], 10⟩ ⟨1⟩ ⟨2⟩ = false ∧
    atom.compare ⟨[[], [97, 0, 98], [97, 0, 99]], 10⟩ ⟨1⟩ ⟨2⟩ = 0 := by
  refine ⟨rfl, rfl, rfl, by decide, by decide, by decide, by decide⟩

/-- C8 amended: atom equality is index equality, equivalently equality of
the underlying byte strings under the distinct-strings invariant; and
for atoms whose byte strings contain no NUL byte (as strcmp on c_str
observes only the bytes before the first NUL), the order is strict
lexicographic byte order and compare returns 0 exactly on equal atoms. -/
theorem c8_atom_order_amended (t : AtomTable) (a b : atom) (hw : t.WF)
    (hnul : ∀ s ∈ t.entries, (0 : Nat) ∉ s)
    (ha : a.m_index < t.entries.length) (hb : b.m_index < t.entries.length) :
    atom_order_spec t a b := by
  refine ⟨by simp [atom.beq], atom_str_inj t hw a b ha hb, ?_, ?_⟩
  · unfold atom.lt
    rw [strcmpB_eq_lexCmp _ _ (hnul _ (atom_str_mem t a ha)) (hnul _ (atom_str_mem t b hb))]
    simp only [decide_eq_true_eq]
    exact lexCmp_neg_iff _ _
  · rw [atom_compare_zero_iff t hw hnul a b ha hb]
    simp [atom.beq]

/-- C8 witness: the NUL-free atoms ab and abc at indices 1 and 2 of a
small well-formed table satisfy the amended ordering claims. -/
theorem c8_atom_order_amended_witness :
    (⟨[[], [97, 98], [97, 98, 99]], 10⟩ : AtomTable).WF ∧
    (∀ s ∈ (⟨[[], [97, 98], [97, 98, 99]], 10⟩ : AtomTable).entries, (0 : Nat) ∉ s) ∧
    1 < 3 ∧ 2 < 3 ∧
    atom_order_spec ⟨[[], [97, 98], [97, 98, 99]], 10⟩ ⟨1⟩ ⟨2⟩ :=
  ⟨⟨by decide, by decide, rfl⟩, by decide, by decide, by decide,
    c8_atom_order_amended ⟨[[], [97, 98], [97, 98, 99]], 10⟩ ⟨1⟩ ⟨2⟩
      ⟨by decide, by decide, rfl⟩ (by decide) (by decide) (by decide)⟩

end ClaimC8

section ClaimC10

/-- Characterization of port::operator-below as a lexicographic
comparison of (descending node, id, creation). -/
theorem port_lt_iff (t : AtomTable) (p q : port) :
    port.lt t p q = true ↔
      (0 < atom.compare t (port.node p) (port.node q) ∨
        (atom.compare t (port.node p) (port.node q) = 0 ∧
          (p.id < q.id ∨ (p.id = q.id ∧ p.creation < q.creation)))) := by
  simp only [port.lt]
  rcases Int.lt_trichotomy (atom.compare t (port.node p) (port.node q)) 0 with h | h | h
  · rw [if_neg (by omega), if_pos (by omega)]
    simp only [Bool.false_eq_true, false_iff]
    rintro (h1 | ⟨h2, _⟩) <;> omega
  · rw [if_neg (by omega), if_neg (by omega)]
    rcases Int.lt_trichotomy p.id q.id with h2 | h2 | h2
    · rw [if_pos h2]
      constructor
      · intro _
        exact Or.inr ⟨h, Or.inl h2⟩
      · intro _
        rfl
    · rw [if_neg (by omega), if_neg (by omega)]
      rcases Int.lt_trichotomy p.creation q.creation with h3 | h3 | h3
      · rw [if_pos h3]
        constructor
        · intro _
          exact Or.inr ⟨h, Or.inr ⟨h2, h3⟩⟩
        · intro _
          rfl
      · rw [if_neg (by omega), if_neg (by omega)]
        simp only [Bool.false_eq_true, false_iff]
        rintro (h1 | ⟨h4, h5 | ⟨h5, h6⟩⟩) <;> omega
      · rw [if_neg (by omega), if_pos h3]
        simp only [Bool.false_eq_true, false_iff]
        rintro (h1 | ⟨h4, h5 | ⟨h5, h6⟩⟩) <;> omega
    · rw [if_neg (by omega), if_pos h2]
      simp only [Bool.false_eq_true, false_iff]
      rintro (h1 | ⟨h4, h5 | ⟨h5, h6⟩⟩) <;> omega
  · rw [if_pos h]
    constructor
    · intro _
      exact Or.inl h
    · intro _
      rfl

/-- Characterization of port::operator== componentwise. -/
theorem port_beq_iff (p q : port) :
    port.beq p q = true ↔
      (p.id = q.id ∧ (port.node p).m_index = (port.node q).m_index ∧
        p.creation = q.creation) := by
  simp [port.beq, atom.beq, Bool.and_eq_true, and_assoc]

/-- C10 amended: over a well-formed table whose interned strings are
NUL-free, port operator-below is a strict total order consistent with
operator== (exactly one of the three relations holds), and at equal id
and creation p is below q precisely when p's node name is the
lexicographically greater one. -/
theorem c10_port_order_amended (t : AtomTable) (p q : port) (hw : t.WF)
    (hnul : ∀ s ∈ t.entries, (0 : Nat) ∉ s)
    (hp : (port.node p).m_index < t.entries.length)
    (hq : (port.node q).m_index < t.entries.length) :
    port_order_spec t p q := by
  have hc0 := atom_compare_zero_iff t hw hnul (port.node p) (port.node q) hp hq
  have hc0r := atom_compare_zero_iff t hw hnul (port.node q) (port.node p) hq hp
  have hcneg := atom_compare_neg_iff t hw hnul (port.node p) (port.node q) hp hq
  have hcnegr := atom_compare_neg_iff t hw hnul (port.node q) (port.node p) hq hp
  have hcpos := atom_compare_pos_iff t hw hnul (port.node p) (port.node q) hp hq
  have hcposr := atom_compare_pos_iff t hw hnul (port.node q) (port.node p) hq hp
  have hltpq := port_lt_iff t p q
  have hltqp := port_lt_iff t q p
  have hbeq := port_beq_iff p q
  have hs1 : 0 < atom.compare t (port.node p) (port.node q) →
      atom.compare t (port.node q) (port.node p) < 0 :=
    fun h => hcnegr.mpr (hcpos.mp h)
  have hs2 : atom.compare t (port.node p) (port.node q) = 0 →
      atom.compare t (port.node q) (port.node p) = 0 :=
    fun h => hc0r.mpr (hc0.mp h).symm
  have hs2r : atom.compare t (port.node q) (port.node p) = 0 →
      atom.compare t (port.node p) (port.node q) = 0 :=
    fun h => hc0.mpr (hc0r.mp h).symm
  have hs3 : atom.compare t (port.node p) (port.node q) < 0 →
      0 < atom.compare t (port.node q) (port.node p) :=
    fun h => hcposr.mpr (hcneg.mp h)
  refine ⟨?_, ?_, ?_, ?_, ?_⟩
  · rcases Int.lt_trichotomy (atom.compare t (port.node p) (port.node q)) 0 with h | h | h
    · exact Or.inr (Or.inl (hltqp.mpr (Or.inl (hs3 h))))
    · rcases Int.lt_trichotomy p.id q.id with h2 | h2 | h2
      · exact Or.inl (hltpq.mpr (Or.inr ⟨h, Or.inl h2⟩))
      · rcases Int.lt_trichotomy p.creation q.creation with h3 | h3 | h3
        · exact Or.inl (hltpq.mpr (Or.inr ⟨h, Or.inr ⟨h2, h3⟩⟩))
        · exact Or.inr (Or.inr (hbeq.mpr ⟨h2, hc0.mp h, h3⟩))
        · exact Or.inr (Or.inl (hltqp.mpr (Or.inr ⟨hs2 h, Or.inr ⟨h2.symm, h3⟩⟩)))
      · exact Or.inr (Or.inl (hltqp.mpr (Or.inr ⟨hs2 h, Or.inl h2⟩)))
    · exact Or.inl (hltpq.mpr (Or.inl h))
  · rintro ⟨l1, l2⟩
    rcases hltpq.mp l1 with h1 | ⟨h1, h1b⟩ <;> rcases hltqp.mp l2 with h2 | ⟨h2, h2b⟩
    · have := hs1 h1
      omega
    · have := hs2r h2
      omega
    · have := hs2 h1
      omega
    · rcases h1b with h4 | ⟨h4, h5⟩ <;> rcases h2b with h6 | ⟨h6, h7⟩ <;> omega
  · rintro ⟨l1, l2⟩
    obtain ⟨e1, e2, e3⟩ := hbeq.mp l2
    have hz : atom.compare t (port.node p) (port.node q) = 0 := hc0.mpr e2
    rcases hltpq.mp l1 with h1 | ⟨h1, h4 | ⟨h4, h5⟩⟩ <;> omega
  · rintro ⟨l1, l2⟩
    obtain ⟨e1, e2, e3⟩ := hbeq.mp l2
    have hz : atom.compare t (port.node q) (port.node p) = 0 := hc0r.mpr e2.symm
    rcases hltqp.mp l1 with h1 | ⟨h1, h4 | ⟨h4, h5⟩⟩ <;> omega
  · intro hid hcre
    rw [hltpq]
    constructor
    · rintro (h1 | ⟨h1, h4 | ⟨h4, h5⟩⟩)
      · exact hcpos.mp h1
      · omega
      · omega
    · intro hl
      exact Or.inl (hcpos.mpr hl)

/-- C10 counterexample: two ports sharing id 1 and creation 1 whose node
atoms are the NUL-embedded strings 97 0 98 and 97 0 99, both constructed
through the component constructor over a reachable table.  Neither port
is below the other and they are not equal, refuting trichotomy; moreover
the second node name is lexicographically greater, so the claimed
descending node comparison would make the first port below the second,
yet operator-below returns false. -/
theorem c10_port_trichotomy_counterexample :
    port.make 64 ⟨[[], [97, 0, 98], [97, 0, 99]], 10⟩ ⟨1⟩ 1 1
      = .ok ⟨some (port_init ⟨1⟩ 1 1)⟩ ∧
    port.make 64 ⟨[[], [97, 0, 98], [97, 0, 99]], 10⟩ ⟨2⟩ 1 1
      = .ok ⟨some (port_init ⟨2⟩ 1 1)⟩ ∧
    port.lt ⟨[[], [97, 0, 98], [97, 0, 99]], 10⟩ ⟨some (port_init ⟨1⟩ 1 1)⟩
      ⟨some (port_init ⟨2⟩ 1 1)⟩ = false ∧
    port.lt ⟨[[], [97, 0, 98], [97, 0, 99]], 10⟩ ⟨some (port_init ⟨2⟩ 1 1)⟩
      ⟨some (port_init ⟨1⟩ 1 1)⟩ = false ∧
    port.beq ⟨some (port_init ⟨1⟩ 1 1)⟩ ⟨some (port_init ⟨2⟩ 1 1)⟩ = false ∧
    lexLtBytes
      (atom.str (port.node ⟨some (port_init ⟨1⟩ 1 1)⟩) ⟨[[], [97, 0, 98], [97, 0, 99]], 10⟩)
      (atom.str (port.node ⟨some (port_init ⟨2⟩ 1 1)⟩) ⟨[[], [97, 0, 98], [97, 0, 99]], 10⟩)
      = true := by
  refine ⟨rfl, rfl, by decide, by decide, by decide, by decide⟩

/-- C10 witness: ports over the NUL-free node names a-at-h and b-at-h
with equal id and creation satisfy the amended total-order claims. -/
theorem c10_port_order_amended_witness :
    (⟨[[], [97, 64, 104], [98, 64, 104]], 10⟩ : AtomTable).WF ∧
    (∀ s ∈ (⟨[[], [97, 64, 104], [98, 64, 104]], 10⟩ : AtomTable).entries,
      (0 : Nat) ∉ s) ∧
    port_order_spec ⟨[[], [97, 64, 104], [98, 64, 104]], 10⟩
      ⟨some (port_init ⟨1⟩ 1 1)⟩ ⟨some (port_init ⟨2⟩ 1 1)⟩ :=
  ⟨⟨by decide, by decide, rfl⟩, by decide,
    c10_port_order_amended ⟨[[], [97, 64, 104], [98, 64, 104]], 10⟩
      ⟨some (port_init ⟨1⟩ 1 1)⟩ ⟨some (port_init ⟨2⟩ 1 1)⟩
      ⟨by decide, by decide, rfl⟩ (by decide) (by decide) (by decide)⟩

end ClaimC10

end EixxModel
